import Mathlib

/-!
Verification development for the AutoCapCutVN repository.

The repository couples a REST façade over a video-project library with an
audio feature-extraction pipeline.  The definitions below shallowly embed
the Python sources: pure functions become Lean functions over `ℚ`, `Int`,
`String` and lists; the in-memory draft cache becomes explicit state
passing; fallible operations return `Option` or `Except`.  The audio
analysis service itself is not present in the source tree (only its test
driver is), so its operations are modelled from the specification, as
flagged in their doc comments.
-/

namespace AutoCapCut

/-! ## Keyframe request model (`model.py`, class `Keyframe`) -/

/-- Embedding of the pydantic `Keyframe` request model of `model.py`:
`time_offset_ms` is required (`Field(...)`); `property`, `value` and
`volume` are three independent `Optional` fields, each defaulting to
`None`.  The class declares no `field_validator`. -/
structure Keyframe where
  time_offset_ms : Int
  property : Option String
  value : Option ℚ
  volume : Option ℚ
deriving DecidableEq

/-- Raw input record for `Keyframe` validation: every field may be absent,
as in the JSON body handed to pydantic. -/
structure KeyframeInput where
  time_offset_ms : Option Int
  property : Option String
  value : Option ℚ
  volume : Option ℚ
deriving DecidableEq

/-- Pydantic validation of a `Keyframe` as declared in `model.py`: the only
requirement is that `time_offset_ms` is present; the three optional fields
are passed through with no cross-field constraint (the class body contains
none). -/
def validateKeyframe (i : KeyframeInput) : Option Keyframe :=
  match i.time_offset_ms with
  | none => none
  | some t => some ⟨t, i.property, i.value, i.volume⟩

/-! ## Time parsing (`api_utils.py`) -/

/-- Embedding of `seconds_to_microseconds` of `api_utils.py` restricted to
integer seconds: `int(seconds * 1_000_000)`, exact on integers. -/
def seconds_to_microseconds (s : Int) : Int :=
  s * 1000000

/-- Embedding of the `int` branch of `parse_time` of `api_utils.py`: an
integer strictly greater than `10000` is treated as already-microseconds
and returned unchanged, otherwise it is treated as seconds and converted. -/
def parse_time_int (v : Int) : Int :=
  if v > 10000 then v else seconds_to_microseconds v

/-! ## Draft cache (`draft_cache.py`) -/

/-- The in-memory draft cache of `draft_cache.py`: a map from draft id to
`(script_file, draft_folder_path, draft_name)`.  The `ScriptFile` payload
type is abstracted as a type parameter. -/
def DraftCache (α : Type) : Type :=
  String → Option (α × String × String)

/-- The initial, empty `_draft_cache` dictionary. -/
def emptyDraftCache (α : Type) : DraftCache α :=
  fun _ => none

/-- Embedding of `store_draft`: dictionary assignment
`_draft_cache[draft_id] = (script_file, draft_folder_path, draft_name)`. -/
def store_draft {α : Type} (c : DraftCache α) (draft_id : String)
    (script_file : α) (draft_folder_path draft_name : String) : DraftCache α :=
  fun x => if x = draft_id then some (script_file, draft_folder_path, draft_name) else c x

/-- Embedding of `get_draft`: `_draft_cache.get(draft_id)`. -/
def get_draft {α : Type} (c : DraftCache α) (draft_id : String) :
    Option (α × String × String) :=
  c draft_id

/-- Embedding of `remove_draft`: returns whether the id was present and the
cache with the id deleted. -/
def remove_draft {α : Type} (c : DraftCache α) (draft_id : String) :
    Bool × DraftCache α :=
  ((c draft_id).isSome, fun x => if x = draft_id then none else c x)

/-! ## Metadata sync (`Vinh_add_efffect_to_file.py`, `add_items_to_file`) -/

/-- One item scraped from the draft JSON, as consumed by
`add_items_to_file`: the selection loop only inspects `item.get('name', '')`;
the remaining dict fields are summarised as an opaque payload string fed to
the code generator. -/
structure SyncItem where
  name : String
  payload : String
deriving DecidableEq

/-- Embedding of the selection loop of `add_items_to_file`
(`Vinh_add_efffect_to_file.py`, lines 310–319): items with an empty name are
dropped; an item whose name is in `existing_names` is recorded as skipped;
otherwise it is emitted and its name added to `existing_names`.  Returns
`(new_items, skipped, final existing names)`. -/
def addItemsLoop : List SyncItem → List String → List SyncItem × List String × List String
  | [], ex => ([], [], ex)
  | it :: rest, ex =>
    if it.name = "" then addItemsLoop rest ex
    else if it.name ∈ ex then
      let r := addItemsLoop rest ex
      (r.1, it.name :: r.2.1, r.2.2)
    else
      let r := addItemsLoop rest (it.name :: ex)
      (it :: r.1, r.2.1, r.2.2)

/-! ## Audio analysis service

The `audio_analysis_service` module is imported by `test_librosa_service.py`
but its source file is not in the tree; the operations below are modelled
from the specification (sections 3, 4 and 8 of `spec.md`). -/

/-- Modelled from the spec: the missing `AudioAnalysisService` class,
constructed as `AudioAnalysisService(sample_rate=22050, hop_length=512)` by
the test driver; `sample_rate` is the resample target and `hop_length` the
frame stride in samples. -/
structure AudioAnalysisService where
  sample_rate : ℕ := 22050
  hop_length : ℕ := 512
deriving DecidableEq

/-- Fuelled splitting of a sample buffer into consecutive frames of `hop`
samples; the fuel is instantiated with the buffer length. -/
def chunksF : ℕ → ℕ → List ℚ → List (List ℚ)
  | 0, _, _ => []
  | _ + 1, _, [] => []
  | fuel + 1, hop, a :: l => (a :: l).take hop :: chunksF fuel hop ((a :: l).drop hop)

/-- Modelled from the spec: the missing framing step shared by the
analyzers — the buffer is cut into consecutive analysis frames of
`hop` samples ("RMS is computed per analysis frame over a fixed
frame/hop size"). A zero hop yields no frames. -/
def chunks (hop : ℕ) (y : List ℚ) : List (List ℚ) :=
  if hop = 0 then [] else chunksF y.length hop y

/-- Modelled from the spec: per-frame RMS energy of the missing energy
analyzer, kept in the squared domain (mean of squared samples); the square
root is omitted since it is monotone and fixes zero, which preserves every
property claimed of the RMS statistics (zero exactly on silent frames,
non-negativity, mean bounded by max). -/
def frame_rms (f : List ℚ) : ℚ :=
  (f.map (fun x => x * x)).sum / f.length

/-- Modelled from the spec: one value of the missing onset-strength
envelope ("short-time spectral-flux-like signal"), modelled as the
frame-wise mean squared amplitude — zero exactly on a silent frame,
positive on an active one, the two properties the claims rely on. -/
def frame_strength (f : List ℚ) : ℚ :=
  (f.map (fun x => x * x)).sum / f.length

/-- Modelled from the spec: the missing onset-strength envelope of the
rhythm and onset analyzers, one strength value per analysis frame. -/
def onset_envelope (hop : ℕ) (y : List ℚ) : List ℚ :=
  (chunks hop y).map frame_strength

/-- Modelled from the spec: the peak test of the missing peak-picking pass
("local maximum + threshold"): the envelope value at `i` is positive, at
least the next value, and strictly above the previous one (or `i` is the
first frame).  The minimum-separation rule is not modelled; no claim
depends on it. -/
def is_peakB (env : List ℚ) (i : ℕ) : Bool :=
  decide (0 < env.getD i 0) && decide (env.getD (i + 1) 0 ≤ env.getD i 0) &&
    (i == 0 || decide (env.getD (i - 1) 0 < env.getD i 0))

/-- Modelled from the spec: indices of the detected envelope peaks. -/
def peak_indices (env : List ℚ) : List ℕ :=
  (List.range env.length).filter (is_peakB env)

/-- Minimum of a list of rationals, `0` on the empty list. -/
def listMin : List ℚ → ℚ
  | [] => 0
  | x :: xs => xs.foldr min x

/-- Maximum of a list of rationals, `0` on the empty list. -/
def listMax : List ℚ → ℚ
  | [] => 0
  | x :: xs => xs.foldr max x

/-- Modelled from the spec: min-max normalization of a strength value
against the whole envelope ("min-max normalized across the whole track's
envelope"); degenerate envelopes (max = min) normalize to `0`. -/
def norm_strength (env : List ℚ) (v : ℚ) : ℚ :=
  if listMax env = listMin env then 0
  else (v - listMin env) / (listMax env - listMin env)

/-- Modelled from the spec: frame-index to milliseconds conversion of the
missing `frames_to_ms` (`frame * hop_length / sample_rate * 1000`). -/
def AudioAnalysisService.frame_to_ms (s : AudioAnalysisService) (i : ℕ) : ℚ :=
  (i : ℚ) * s.hop_length / s.sample_rate * 1000

/-- Modelled from the spec: the missing `get_duration_ms`
(`len(samples) / sample_rate * 1000`). -/
def AudioAnalysisService.get_duration_ms (s : AudioAnalysisService) (y : List ℚ) : ℚ :=
  (y.length : ℚ) * 1000 / s.sample_rate

/-- Modelled from the spec: the missing `BeatInfo` result record. -/
structure BeatInfo where
  tempo_bpm : ℚ
  beat_times_ms : List ℚ
  beat_count : ℕ
  average_beat_interval_ms : ℚ
deriving DecidableEq

/-- Modelled from the spec: the missing `OnsetInfo` result record, with
`onset_strengths` parallel to `onset_times_ms` and the two threshold
subsets. -/
structure OnsetInfo where
  onset_times_ms : List ℚ
  onset_strengths : List ℚ
  strong_onsets_ms : List ℚ
  weak_onsets_ms : List ℚ
  onset_count : ℕ
deriving DecidableEq

/-- Modelled from the spec: the missing `EnergyInfo` result record. -/
structure EnergyInfo where
  average_rms : ℚ
  peak_rms : ℚ
  drop_times_ms : List ℚ
  break_times_ms : List ℚ
deriving DecidableEq

/-- Modelled from the spec: the missing `SpectralInfo` result record. -/
structure SpectralInfo where
  spectral_centroid_avg : ℚ
  spectral_bandwidth_avg : ℚ
  mood : String
  suggested_filter_style : List String
deriving DecidableEq

/-- Modelled from the spec: the missing `HPSSInfo` result record. -/
structure HPSSInfo where
  percussive_tempo_bpm : ℚ
  percussive_beat_times_ms : List ℚ
  harmonic_beat_times_ms : List ℚ
deriving DecidableEq

/-- Modelled from the spec: the missing `detect_beats`.  The
dynamic-programming beat tracker is abstracted to peak picking over the
onset-strength envelope (the claims settled here depend only on the
silent-input sentinel path and the derived statistics):
`average_beat_interval_ms` is the mean of consecutive differences (`0` if
fewer than 2 beats) and the tempo is its reciprocal in BPM, with the `0`
sentinel on degenerate input. -/
def AudioAnalysisService.detect_beats (s : AudioAnalysisService) (y : List ℚ) : BeatInfo :=
  let env := onset_envelope s.hop_length y
  let times := (peak_indices env).map s.frame_to_ms
  let diffs := (times.zip times.tail).map (fun p => p.2 - p.1)
  let avgI := if times.length < 2 then 0 else diffs.sum / diffs.length
  ⟨if avgI = 0 then 0 else 60000 / avgI, times, times.length, avgI⟩

/-- Modelled from the spec: the missing `detect_onsets` — peaks of the
onset-strength envelope, their strengths min-max normalized across the
whole envelope, then partitioned: strength strictly above
`strong_threshold` goes to `strong_onsets_ms`, strictly below
`weak_threshold` to `weak_onsets_ms`, values between to neither. -/
def AudioAnalysisService.onset_pairs (s : AudioAnalysisService) (y : List ℚ) :
    List (ℚ × ℚ) :=
  (peak_indices (onset_envelope s.hop_length y)).map
    (fun i => (s.frame_to_ms i,
      norm_strength (onset_envelope s.hop_length y)
        ((onset_envelope s.hop_length y).getD i 0)))

/-- Modelled from the spec: the partition step of the missing
`detect_onsets` applied to the time/strength pairs. -/
def AudioAnalysisService.detect_onsets (s : AudioAnalysisService) (y : List ℚ)
    (strong_threshold weak_threshold : ℚ) : OnsetInfo :=
  { onset_times_ms := (s.onset_pairs y).map Prod.fst
    onset_strengths := (s.onset_pairs y).map Prod.snd
    strong_onsets_ms :=
      ((s.onset_pairs y).filter (fun p => strong_threshold < p.2)).map Prod.fst
    weak_onsets_ms :=
      ((s.onset_pairs y).filter (fun p => p.2 < weak_threshold)).map Prod.fst
    onset_count := (s.onset_pairs y).length }

/-- Modelled from the spec: the per-frame RMS curve of the missing
`analyze_energy`, one (squared-domain) RMS value per analysis frame; the
aggregate statistics and the drop/break timestamps thresholded on its
min-max-normalized form are taken over this curve. -/
def rms_values (hop : ℕ) (y : List ℚ) : List ℚ :=
  (chunks hop y).map frame_rms

/-- Modelled from the spec: the aggregation and thresholding step of the
missing `analyze_energy` over the per-frame RMS curve. -/
def AudioAnalysisService.analyze_energy (s : AudioAnalysisService) (y : List ℚ)
    (drop_threshold break_threshold : ℚ) : EnergyInfo :=
  { average_rms := (rms_values s.hop_length y).sum / (rms_values s.hop_length y).length
    peak_rms := (rms_values s.hop_length y).foldr max 0
    drop_times_ms :=
      ((List.range (rms_values s.hop_length y).length).filter
        (fun i => decide (drop_threshold <
          ((rms_values s.hop_length y).map
            (norm_strength (rms_values s.hop_length y))).getD i 0))).map s.frame_to_ms
    break_times_ms :=
      ((List.range (rms_values s.hop_length y).length).filter
        (fun i => decide (((rms_values s.hop_length y).map
          (norm_strength (rms_values s.hop_length y))).getD i 0 <
            break_threshold))).map s.frame_to_ms }

/-- Modelled from the spec: the deterministic mood-to-filter lookup table
of the missing spectral analyzer. -/
def filter_style_for (mood : String) : List String :=
  if mood = "bright" then ["vibrant", "clean"]
  else if mood = "dark" then ["moody", "cinematic"]
  else ["natural"]

/-- Modelled from the spec: the missing `analyze_mood`.  The per-frame
spectral centroid and bandwidth are modelled as non-negative frame
statistics derived from the envelope (the claims settled here only use the
aggregation and classification structure); the mood is classified by fixed
numeric bands of the average centroid and the filter style is the lookup
table keyed by mood. -/
def AudioAnalysisService.analyze_mood (s : AudioAnalysisService) (y : List ℚ) : SpectralInfo :=
  let env := onset_envelope s.hop_length y
  let c := if env.length = 0 then 0 else env.sum / env.length * s.sample_rate / 4
  let mood := if 3000 < c then "bright" else if c < 1000 then "dark" else "neutral"
  ⟨c, c / 2, mood, filter_style_for mood⟩

/-- Modelled from the spec: the percussive component of the missing HPSS —
the median-filter separation is abstracted to a transient-emphasising
positive first difference. -/
def hpss_percussive (y : List ℚ) : List ℚ :=
  (y.zip (0 :: y)).map (fun p => max 0 (p.1 - p.2))

/-- Modelled from the spec: the harmonic component of the missing HPSS —
abstracted to a smoothing pairwise average. -/
def hpss_harmonic (y : List ℚ) : List ℚ :=
  (y.zip (0 :: y)).map (fun p => (p.1 + p.2) / 2)

/-- Modelled from the spec: the missing `separate_harmonic_percussive` —
the beat tracker re-run on the percussive component and an onset pass on
the harmonic component. -/
def AudioAnalysisService.separate_harmonic_percussive (s : AudioAnalysisService)
    (y : List ℚ) : HPSSInfo :=
  let pb := s.detect_beats (hpss_percussive y)
  let ho := s.detect_onsets (hpss_harmonic y) (7/10) (3/10)
  ⟨pb.tempo_bpm, pb.beat_times_ms, ho.onset_times_ms⟩

/-- Modelled from the spec: the missing `FullAnalysisResult` aggregate. -/
structure FullAnalysisResult where
  duration_ms : ℚ
  sample_rate : ℕ
  beat_info : BeatInfo
  onset_info : OnsetInfo
  energy_info : EnergyInfo
  spectral_info : SpectralInfo
  hpss_info : Option HPSSInfo
deriving DecidableEq

/-- Modelled from the spec: the missing `analyze_full` aggregator — decodes
the file once through the loader (modelled as the `decode` environment,
which fails exactly when the file cannot be decoded), then runs every
sub-analyzer against the same decoded buffer with the default thresholds,
including HPSS only when requested.  The sub-analyzers are total: the only
failure is the loader's. -/
def AudioAnalysisService.analyze_full (s : AudioAnalysisService)
    (decode : String → Except String (List ℚ)) (path : String)
    (include_hpss : Bool) : Except String FullAnalysisResult :=
  match decode path with
  | .error e => .error e
  | .ok y => .ok
      { duration_ms := s.get_duration_ms y
        sample_rate := s.sample_rate
        beat_info := s.detect_beats y
        onset_info := s.detect_onsets y (7/10) (3/10)
        energy_info := s.analyze_energy y (4/5) (1/5)
        spectral_info := s.analyze_mood y
        hpss_info := if include_hpss then some (s.separate_harmonic_percussive y) else none }

/-- Modelled from the spec: one keyframe emitted by the missing keyframe
generator (`{time_offset_ms, property, value}` records). -/
structure ZoomKeyframe where
  time_offset_ms : ℚ
  property : String
  value : ℚ
deriving DecidableEq

/-- Modelled from the spec: the pulse pairs of the missing
`generate_zoom_keyframes_from_beats` — per beat, a scale-up keyframe at the
beat and a scale-back-down keyframe halfway before the next beat; after the
final beat the down keyframe falls a fixed 250 ms later. -/
def zoom_pairs (zoom_scale base_scale : ℚ) (property_name : String) :
    List ℚ → List ZoomKeyframe
  | [] => []
  | [t] => [⟨t, property_name, zoom_scale⟩, ⟨t + 250, property_name, base_scale⟩]
  | t :: t' :: rest =>
    ⟨t, property_name, zoom_scale⟩ :: ⟨t + (t' - t) / 2, property_name, base_scale⟩ ::
      zoom_pairs zoom_scale base_scale property_name (t' :: rest)

/-- Modelled from the spec: the missing
`generate_zoom_keyframes_from_beats(beat_times_ms, base_scale, zoom_scale,
property_name)`. -/
def AudioAnalysisService.generate_zoom_keyframes_from_beats
    (_s : AudioAnalysisService) (beat_times_ms : List ℚ)
    (base_scale zoom_scale : ℚ) (property_name : String) : List ZoomKeyframe :=
  zoom_pairs zoom_scale base_scale property_name beat_times_ms

/-- A loader environment used to exercise `analyze_full`: one decodable
path, every other path fails with the loader's error. -/
def decodeStub (path : String) : Except String (List ℚ) :=
  if path = "track.mp3" then .ok [0, 1, 0] else .error "decode failed"

/-! ## Theorems -/

/-- Claim C1 — counterexample: the `Keyframe` model of `model.py` is not a
tagged union; pydantic validation accepts an instance with the
`(property, value)` pair and the `volume` field populated simultaneously,
since the class declares the three fields as independent optionals with no
cross-field validator. -/
theorem keyframe_tagged_union_refuted :
    ¬ ∀ (i : KeyframeInput) (k : Keyframe), validateKeyframe i = some k →
      ¬ (k.property.isSome = true ∧ k.value.isSome = true ∧ k.volume.isSome = true) := by
  intro h
  exact h ⟨some 0, some "scale_x", some (23/20), some (1/2)⟩
    ⟨0, some "scale_x", some (23/20), some (1/2)⟩ rfl ⟨rfl, rfl, rfl⟩

/-- Claim C1 — amended: `Keyframe` validation requires only that
`time_offset_ms` is present; `property`, `value` and `volume` are passed
through unconstrained, so no tagged-union exclusivity is enforced. -/
theorem keyframe_fields_passthrough :
    ∀ (i : KeyframeInput) (t : Int), i.time_offset_ms = some t →
      validateKeyframe i = some ⟨t, i.property, i.value, i.volume⟩ := by
  intro i t h
  obtain ⟨tm, p, v, vol⟩ := i
  cases h
  rfl

/-- Witness for the amended claim C1 at a concrete input. -/
theorem keyframe_fields_passthrough_witness :
    validateKeyframe ⟨some 7, some "alpha", some 1, none⟩ =
      some ⟨7, some "alpha", some 1, none⟩ :=
  keyframe_fields_passthrough ⟨some 7, some "alpha", some 1, none⟩ 7 rfl

/-- Claim C9: the `int` branch of `parse_time` keys on magnitude — every
integer strictly above `10000` is returned unchanged (already
microseconds), every integer at most `10000` is multiplied by `1_000_000`
(seconds), giving the discontinuity `parse_time(10000) = 10_000_000_000`
against `parse_time(10001) = 10001`. -/
theorem parse_time_int_magnitude :
    (∀ v : Int, 10000 < v → parse_time_int v = v) ∧
    (∀ v : Int, v ≤ 10000 → parse_time_int v = v * 1000000) ∧
    parse_time_int 10000 = 10000000000 ∧ parse_time_int 10001 = 10001 := by
  refine ⟨fun v h => ?_, fun v h => ?_, by decide, by decide⟩
  · simp [parse_time_int, h]
  · simp [parse_time_int, seconds_to_microseconds, not_lt.2 h]

/-- Witness for claim C9 at concrete inputs on both sides of the
boundary. -/
theorem parse_time_int_magnitude_witness :
    parse_time_int 20000 = 20000 ∧ parse_time_int 5 = 5 * 1000000 :=
  ⟨parse_time_int_magnitude.1 20000 (by decide),
   parse_time_int_magnitude.2.1 5 (by decide)⟩

/-- Claim C8: the draft cache is a finite map — `get_draft` right after
`store_draft` returns exactly the stored triple, an id never stored (empty
cache) or removed reads back `None`, and `remove_draft` reports `True`
exactly when the id was present, leaving it absent. -/
theorem draft_cache_finite_map :
    ∀ (α : Type) (c : DraftCache α) (d : String) (sf : α) (fp nm : String),
      get_draft (store_draft c d sf fp nm) d = some (sf, fp, nm) ∧
      get_draft (emptyDraftCache α) d = none ∧
      get_draft (remove_draft c d).2 d = none ∧
      ((remove_draft c d).1 = true ↔ (get_draft c d).isSome = true) := by
  intro α c d sf fp nm
  refine ⟨?_, rfl, ?_, ?_⟩
  · simp [get_draft, store_draft]
  · simp [get_draft, remove_draft]
  · simp [get_draft, remove_draft]

/-- Every name emitted by the selection loop of `add_items_to_file` is
absent from the running existing-name set it started from. -/
theorem addItemsLoop_avoids_existing :
    ∀ (items : List SyncItem) (ex : List String) (n : String), n ∈ ex →
      ∀ it ∈ (addItemsLoop items ex).1, it.name ≠ n := by
  intro items
  induction items with
  | nil => intro ex n _ it hit; simp [addItemsLoop] at hit
  | cons a rest ih =>
    intro ex n hn it hit
    by_cases h0 : a.name = ""
    · rw [addItemsLoop, if_pos h0] at hit
      exact ih ex n hn it hit
    · by_cases h1 : a.name ∈ ex
      · rw [addItemsLoop, if_neg h0, if_pos h1] at hit
        exact ih ex n hn it hit
      · rw [addItemsLoop, if_neg h0, if_neg h1] at hit
        rcases List.mem_cons.1 hit with rfl | hit
        · exact fun hEq => h1 (hEq ▸ hn)
        · exact ih (a.name :: ex) n (List.mem_cons_of_mem _ hn) it hit

/-- The names emitted by one run of the selection loop of
`add_items_to_file` contain no duplicates. -/
theorem addItemsLoop_names_nodup :
    ∀ (items : List SyncItem) (ex : List String),
      ((addItemsLoop items ex).1.map SyncItem.name).Nodup := by
  intro items
  induction items with
  | nil => intro ex; simp [addItemsLoop]
  | cons a rest ih =>
    intro ex
    by_cases h0 : a.name = ""
    · rw [addItemsLoop, if_pos h0]; exact ih ex
    · by_cases h1 : a.name ∈ ex
      · rw [addItemsLoop, if_neg h0, if_pos h1]; exact ih ex
      · rw [addItemsLoop, if_neg h0, if_neg h1]
        refine List.nodup_cons.2 ⟨?_, ih (a.name :: ex)⟩
        intro hmem
        rcases List.mem_map.1 hmem with ⟨it, hit, hEq⟩
        exact addItemsLoop_avoids_existing rest (a.name :: ex) a.name
          (List.mem_cons_self _ _) it hit hEq

/-- If every item's name is already in the existing-name set, the selection
loop of `add_items_to_file` emits nothing. -/
theorem addItemsLoop_all_existing :
    ∀ (items : List SyncItem) (ex : List String),
      (∀ it ∈ items, it.name ∈ ex) → (addItemsLoop items ex).1 = [] := by
  intro items
  induction items with
  | nil => intro ex _; rfl
  | cons a rest ih =>
    intro ex h
    have ha : a.name ∈ ex := h a (List.mem_cons_self _ _)
    by_cases h0 : a.name = ""
    · rw [addItemsLoop, if_pos h0]
      exact ih ex fun it hit => h it (List.mem_cons_of_mem _ hit)
    · rw [addItemsLoop, if_neg h0, if_pos ha]
      exact ih ex fun it hit => h it (List.mem_cons_of_mem _ hit)

/-- Claim C10: the metadata-sync appender is idempotent per name — no
emitted item has a name from the initial existing-name set, at most one
item is emitted per distinct name (the emitted names are duplicate-free),
and when every item's name is already present (a re-run over an unchanged
draft) nothing is appended. -/
theorem add_items_idempotent_per_name :
    ∀ (items : List SyncItem) (ex : List String),
      ((addItemsLoop items ex).1.map SyncItem.name).Nodup ∧
      (∀ it ∈ (addItemsLoop items ex).1, it.name ∉ ex) ∧
      ((∀ it ∈ items, it.name ∈ ex) → (addItemsLoop items ex).1 = []) := by
  intro items ex
  refine ⟨addItemsLoop_names_nodup items ex, ?_, addItemsLoop_all_existing items ex⟩
  intro it hit hmem
  exact addItemsLoop_avoids_existing items ex it.name hmem it hit rfl

/-- Witness for claim C10 at a concrete item list: re-running over already
synced names appends nothing. -/
theorem add_items_idempotent_per_name_witness :
    (addItemsLoop [⟨"Blur", "meta"⟩, ⟨"Glow", "meta"⟩] ["Blur", "Glow"]).1 = [] :=
  (add_items_idempotent_per_name [⟨"Blur", "meta"⟩, ⟨"Glow", "meta"⟩]
    ["Blur", "Glow"]).2.2 (by decide)

/-- Every sample of every frame produced by the fuelled splitter comes from
the original buffer. -/
theorem mem_of_mem_chunksF :
    ∀ (fuel hop : ℕ) (y c : List ℚ), c ∈ chunksF fuel hop y → ∀ x ∈ c, x ∈ y := by
  intro fuel
  induction fuel with
  | zero => intro hop y c hc; simp [chunksF] at hc
  | succ n ih =>
    intro hop y c hc x hx
    cases y with
    | nil => simp [chunksF] at hc
    | cons a l =>
      rw [chunksF] at hc
      rcases List.mem_cons.1 hc with rfl | hc
      · exact List.take_subset _ _ hx
      · exact List.drop_subset _ _ (ih hop _ c hc x hx)

/-- Every sample of every analysis frame comes from the original buffer. -/
theorem mem_of_mem_chunks (hop : ℕ) (y c : List ℚ) (hc : c ∈ chunks hop y) :
    ∀ x ∈ c, x ∈ y := by
  unfold chunks at hc
  split at hc
  · simp at hc
  · exact mem_of_mem_chunksF _ _ _ _ hc

/-- The mean squared amplitude of an all-zero frame is zero. -/
theorem frame_strength_eq_zero (f : List ℚ) (h : ∀ x ∈ f, x = 0) :
    frame_strength f = 0 := by
  unfold frame_strength
  rw [List.sum_eq_zero, zero_div]
  intro b hb
  rcases List.mem_map.1 hb with ⟨x, hx, rfl⟩
  rw [h x hx, mul_zero]

/-- The squared-domain RMS of an all-zero frame is zero. -/
theorem frame_rms_eq_zero (f : List ℚ) (h : ∀ x ∈ f, x = 0) :
    frame_rms f = 0 := by
  unfold frame_rms
  rw [List.sum_eq_zero, zero_div]
  intro b hb
  rcases List.mem_map.1 hb with ⟨x, hx, rfl⟩
  rw [h x hx, mul_zero]

/-- The onset-strength envelope of an all-zero buffer is identically
zero. -/
theorem onset_envelope_eq_zero (hop : ℕ) (y : List ℚ) (h : ∀ x ∈ y, x = 0) :
    ∀ e ∈ onset_envelope hop y, e = 0 := by
  intro e he
  rcases List.mem_map.1 he with ⟨c, hc, rfl⟩
  exact frame_strength_eq_zero c fun x hx => h x (mem_of_mem_chunks hop y c hc x hx)

/-- Peak picking over an identically zero envelope finds no peaks: the
positivity threshold fails at every index. -/
theorem peak_indices_eq_nil (env : List ℚ) (h : ∀ e ∈ env, e = 0) :
    peak_indices env = [] := by
  unfold peak_indices
  rw [List.filter_eq_nil_iff]
  intro i hi
  have hlen : i < env.length := List.mem_range.1 hi
  have hgd : env.getD i 0 = 0 := by
    rw [env.getD_eq_getElem 0 hlen]
    exact h _ (List.getElem_mem hlen)
  simp only [is_peakB, hgd, Bool.and_eq_true, decide_eq_true_eq]
  rintro ⟨⟨h1, -⟩, -⟩
  exact lt_irrefl 0 h1

/-- All squared-domain RMS values of an all-zero buffer are zero. -/
theorem rms_values_eq_zero (hop : ℕ) (y : List ℚ) (h : ∀ x ∈ y, x = 0) :
    ∀ r ∈ rms_values hop y, r = 0 := by
  intro r hr
  rcases List.mem_map.1 hr with ⟨c, hc, rfl⟩
  exact frame_rms_eq_zero c fun x hx => h x (mem_of_mem_chunks hop y c hc x hx)

/-- Folding `max` from `0` over an all-zero list yields zero. -/
theorem foldr_max_eq_zero (l : List ℚ) (h : ∀ x ∈ l, x = 0) :
    l.foldr max 0 = 0 := by
  induction l with
  | nil => rfl
  | cons a t ih =>
    rw [List.foldr_cons, h a (List.mem_cons_self _ _),
      ih fun x hx => h x (List.mem_cons_of_mem _ hx), max_self]

/-- Claim C3: on silent input (all-zero buffer of nonzero length) the
analyzers report `beat_count = 0`, `onset_count = 0`, `average_rms = 0`
and `peak_rms = 0`; the operations are total Lean functions, so no
exception can be raised. -/
theorem silent_input_soft_degeneracy :
    ∀ (s : AudioAnalysisService) (y : List ℚ) (st wt dt bt : ℚ),
      y ≠ [] → (∀ x ∈ y, x = 0) →
      (s.detect_beats y).beat_count = 0 ∧
      (s.detect_onsets y st wt).onset_count = 0 ∧
      (s.analyze_energy y dt bt).average_rms = 0 ∧
      (s.analyze_energy y dt bt).peak_rms = 0 := by
  intro s y st wt dt bt _ hz
  have hpk : peak_indices (onset_envelope s.hop_length y) = [] :=
    peak_indices_eq_nil _ (onset_envelope_eq_zero s.hop_length y hz)
  have hrs : ∀ r ∈ rms_values s.hop_length y, r = 0 := rms_values_eq_zero _ y hz
  refine ⟨?_, ?_, ?_, ?_⟩
  · simp [AudioAnalysisService.detect_beats, hpk]
  · simp [AudioAnalysisService.detect_onsets, AudioAnalysisService.onset_pairs, hpk]
  · show (rms_values s.hop_length y).sum / ((rms_values s.hop_length y).length : ℚ) = 0
    rw [List.sum_eq_zero hrs, zero_div]
  · exact foldr_max_eq_zero _ hrs

/-- Witness for claim C3 at a concrete silent buffer. -/
theorem silent_input_soft_degeneracy_witness :
    (AudioAnalysisService.detect_beats ⟨2, 1⟩ [0, 0, 0]).beat_count = 0 ∧
    (AudioAnalysisService.detect_onsets ⟨2, 1⟩ [0, 0, 0] (7/10) (3/10)).onset_count = 0 ∧
    (AudioAnalysisService.analyze_energy ⟨2, 1⟩ [0, 0, 0] (4/5) (1/5)).average_rms = 0 ∧
    (AudioAnalysisService.analyze_energy ⟨2, 1⟩ [0, 0, 0] (4/5) (1/5)).peak_rms = 0 :=
  silent_input_soft_degeneracy ⟨2, 1⟩ [0, 0, 0] (7/10) (3/10) (4/5) (1/5)
    (by decide) (by decide)

/-- Zipping the first and second projections of a pair list recovers the
pair list. -/
theorem zip_fst_snd (l : List (ℚ × ℚ)) :
    (l.map Prod.fst).zip (l.map Prod.snd) = l := by
  rw [List.zip_map']
  simp

/-- Membership in the first projection of a filtered pair list yields a
partner satisfying the filter. -/
theorem filter_map_fst_mem (P : ℚ × ℚ → Bool) (l : List (ℚ × ℚ)) (t : ℚ)
    (h : t ∈ (l.filter P).map Prod.fst) : ∃ v, (t, v) ∈ l ∧ P (t, v) = true := by
  rcases List.mem_map.1 h with ⟨p, hp, rfl⟩
  rcases List.mem_filter.1 hp with ⟨hl, hP⟩
  exact ⟨p.2, by rwa [Prod.mk.eta], by rwa [Prod.mk.eta]⟩

/-- Claim C4: in every `OnsetInfo` produced by `detect_onsets`, each
element of `strong_onsets_ms` has its parallel normalized strength
strictly above `strong_threshold`, and each element of `weak_onsets_ms`
strictly below `weak_threshold`, as read off the zipped
`onset_times_ms`/`onset_strengths` arrays. -/
theorem onset_partition_correct :
    ∀ (s : AudioAnalysisService) (y : List ℚ) (st wt : ℚ),
      (∀ t ∈ (s.detect_onsets y st wt).strong_onsets_ms,
        ∃ v, (t, v) ∈ (s.detect_onsets y st wt).onset_times_ms.zip
            (s.detect_onsets y st wt).onset_strengths ∧ st < v) ∧
      (∀ t ∈ (s.detect_onsets y st wt).weak_onsets_ms,
        ∃ v, (t, v) ∈ (s.detect_onsets y st wt).onset_times_ms.zip
            (s.detect_onsets y st wt).onset_strengths ∧ v < wt) := by
  intro s y st wt
  constructor
  · intro t ht
    have ht' : t ∈ ((s.onset_pairs y).filter
        (fun p => decide (st < p.2))).map Prod.fst := ht
    rcases filter_map_fst_mem _ _ _ ht' with ⟨v, hv, hP⟩
    refine ⟨v, ?_, of_decide_eq_true hP⟩
    show (t, v) ∈ ((s.onset_pairs y).map Prod.fst).zip ((s.onset_pairs y).map Prod.snd)
    rw [zip_fst_snd]
    exact hv
  · intro t ht
    have ht' : t ∈ ((s.onset_pairs y).filter
        (fun p => decide (p.2 < wt))).map Prod.fst := ht
    rcases filter_map_fst_mem _ _ _ ht' with ⟨v, hv, hP⟩
    refine ⟨v, ?_, of_decide_eq_true hP⟩
    show (t, v) ∈ ((s.onset_pairs y).map Prod.fst).zip ((s.onset_pairs y).map Prod.snd)
    rw [zip_fst_snd]
    exact hv

/-- Witness for claim C4 at a concrete buffer with a detected onset that is
both strong and weak under deliberately inverted caller-supplied
thresholds (the source enforces no ordering between them). -/
theorem onset_partition_correct_witness :
    (∃ v, ((0 : ℚ), v) ∈
        (AudioAnalysisService.detect_onsets ⟨1, 1⟩ [1] (-1) 1).onset_times_ms.zip
        (AudioAnalysisService.detect_onsets ⟨1, 1⟩ [1] (-1) 1).onset_strengths ∧
        (-1 : ℚ) < v) ∧
    (∃ v, ((0 : ℚ), v) ∈
        (AudioAnalysisService.detect_onsets ⟨1, 1⟩ [1] (-1) 1).onset_times_ms.zip
        (AudioAnalysisService.detect_onsets ⟨1, 1⟩ [1] (-1) 1).onset_strengths ∧
        v < (1 : ℚ)) :=
  ⟨(onset_partition_correct ⟨1, 1⟩ [1] (-1) 1).1 0 (by
      norm_num [AudioAnalysisService.detect_onsets, AudioAnalysisService.onset_pairs,
        onset_envelope, chunks, chunksF, frame_strength, peak_indices, is_peakB,
        norm_strength, listMin, listMax, AudioAnalysisService.frame_to_ms,
        List.range_succ, List.filter_cons, List.getD_cons_zero, List.getD_cons_succ,
        Bool.and_eq_true, decide_eq_true_eq]),
   (onset_partition_correct ⟨1, 1⟩ [1] (-1) 1).2 0 (by
      norm_num [AudioAnalysisService.detect_onsets, AudioAnalysisService.onset_pairs,
        onset_envelope, chunks, chunksF, frame_strength, peak_indices, is_peakB,
        norm_strength, listMin, listMax, AudioAnalysisService.frame_to_ms,
        List.range_succ, List.filter_cons, List.getD_cons_zero, List.getD_cons_succ,
        Bool.and_eq_true, decide_eq_true_eq])⟩

/-- Claim C5: generating beat keyframes from `[0, 500, 1000]` ms with
`base_scale = 1.0` and `zoom_scale = 1.15` yields exactly 6 keyframes —
one pulse-up/pulse-down value pair per beat — with strictly increasing
`time_offset_ms`. -/
theorem beat_keyframes_example :
    (AudioAnalysisService.generate_zoom_keyframes_from_beats ⟨22050, 512⟩
        [0, 500, 1000] 1 (23/20) "scale_x").length = 6 ∧
    ((AudioAnalysisService.generate_zoom_keyframes_from_beats ⟨22050, 512⟩
        [0, 500, 1000] 1 (23/20) "scale_x").map ZoomKeyframe.value)
      = [23/20, 1, 23/20, 1, 23/20, 1] ∧
    List.Chain' (· < ·)
      ((AudioAnalysisService.generate_zoom_keyframes_from_beats ⟨22050, 512⟩
        [0, 500, 1000] 1 (23/20) "scale_x").map ZoomKeyframe.time_offset_ms) := by
  norm_num [AudioAnalysisService.generate_zoom_keyframes_from_beats, zoom_pairs,
    List.chain'_cons, List.chain'_singleton]

/-- Claim C6: `get_duration_ms` equals
`len(samples) / sample_rate * 1000` for every buffer. -/
theorem get_duration_ms_formula :
    ∀ (s : AudioAnalysisService) (y : List ℚ),
      s.get_duration_ms y = (y.length : ℚ) / (s.sample_rate : ℚ) * 1000 := by
  intro s y
  unfold AudioAnalysisService.get_duration_ms
  rw [mul_div_right_comm]

/-- Each squared-domain frame RMS is non-negative. -/
theorem frame_rms_nonneg (f : List ℚ) : 0 ≤ frame_rms f := by
  unfold frame_rms
  refine div_nonneg (List.sum_nonneg ?_) (Nat.cast_nonneg _)
  intro b hb
  rcases List.mem_map.1 hb with ⟨x, _, rfl⟩
  exact mul_self_nonneg x

/-- Folding `max` from `0` is non-negative. -/
theorem foldr_max_nonneg (l : List ℚ) : 0 ≤ l.foldr max 0 := by
  induction l with
  | nil => exact le_refl 0
  | cons a t ih => exact le_max_of_le_right ih

/-- Every element is bounded by the `max` fold from `0`. -/
theorem le_foldr_max (l : List ℚ) : ∀ x ∈ l, x ≤ l.foldr max 0 := by
  induction l with
  | nil => intro x hx; simp at hx
  | cons a t ih =>
    intro x hx
    rcases List.mem_cons.1 hx with rfl | hx
    · exact le_max_left _ _
    · exact le_trans (ih x hx) (le_max_right _ _)

/-- Claim C7: every `EnergyInfo` produced by `analyze_energy` satisfies the
range invariant — `average_rms` and `peak_rms` are non-negative and
`average_rms ≤ peak_rms`. -/
theorem energy_range_invariant :
    ∀ (s : AudioAnalysisService) (y : List ℚ) (dt bt : ℚ),
      0 ≤ (s.analyze_energy y dt bt).average_rms ∧
      0 ≤ (s.analyze_energy y dt bt).peak_rms ∧
      (s.analyze_energy y dt bt).average_rms ≤ (s.analyze_energy y dt bt).peak_rms := by
  intro s y dt bt
  have h0 : ∀ r ∈ rms_values s.hop_length y, 0 ≤ r := by
    intro r hr
    rcases List.mem_map.1 hr with ⟨c, _, rfl⟩
    exact frame_rms_nonneg c
  refine ⟨?_, foldr_max_nonneg _, ?_⟩
  · show 0 ≤ (rms_values s.hop_length y).sum / ((rms_values s.hop_length y).length : ℚ)
    exact div_nonneg (List.sum_nonneg h0) (Nat.cast_nonneg _)
  · show (rms_values s.hop_length y).sum / ((rms_values s.hop_length y).length : ℚ)
      ≤ (rms_values s.hop_length y).foldr max 0
    rcases eq_or_ne (rms_values s.hop_length y) [] with h | h
    · rw [h]; simp
    · have hl : 0 < ((rms_values s.hop_length y).length : ℚ) := by
        exact_mod_cast List.length_pos.2 h
      rw [div_le_iff₀ hl]
      calc (rms_values s.hop_length y).sum
          ≤ (rms_values s.hop_length y).length •
              ((rms_values s.hop_length y).foldr max 0) :=
            List.sum_le_card_nsmul _ _ (le_foldr_max _)
        _ = ((rms_values s.hop_length y).length : ℚ) *
              ((rms_values s.hop_length y).foldr max 0) := nsmul_eq_mul _ _
        _ = ((rms_values s.hop_length y).foldr max 0) *
              ((rms_values s.hop_length y).length : ℚ) := mul_comm _ _

/-- Claim C2: `analyze_full` fails exactly when the loader's decode fails,
surfacing the loader's error unchanged; on every successfully decoded
input it returns a complete `FullAnalysisResult` (the sub-analyzers are
total, using soft-failure sentinels rather than exceptions). -/
theorem analyze_full_fails_iff_decode_fails :
    ∀ (s : AudioAnalysisService) (decode : String → Except String (List ℚ))
      (path : String) (include_hpss : Bool),
      ((s.analyze_full decode path include_hpss).isOk = (decode path).isOk) ∧
      (∀ e, decode path = .error e →
        s.analyze_full decode path include_hpss = .error e) := by
  intro s d p i
  constructor
  · unfold AudioAnalysisService.analyze_full
    cases hd : d p <;> simp [hd, Except.isOk, Except.toBool]
  · intro e h
    unfold AudioAnalysisService.analyze_full
    rw [h]

/-- Witness for claim C2 at a concrete loader environment: an undecodable
path surfaces the loader's error, and the success bit tracks the
loader. -/
theorem analyze_full_fails_iff_decode_fails_witness :
    ((AudioAnalysisService.analyze_full ⟨4, 2⟩ decodeStub "missing.mp3" true).isOk
        = (decodeStub "missing.mp3").isOk) ∧
    AudioAnalysisService.analyze_full ⟨4, 2⟩ decodeStub "missing.mp3" true
        = Except.error "decode failed" :=
  ⟨(analyze_full_fails_iff_decode_fails ⟨4, 2⟩ decodeStub "missing.mp3" true).1,
   (analyze_full_fails_iff_decode_fails ⟨4, 2⟩ decodeStub "missing.mp3" true).2
     "decode failed" (by simp [decodeStub])⟩

end AutoCapCut
